import Mathlib

/-!
# Verification of the CPU jitter entropy collector

A shallow embedding of the jitter entropy collector (`jitterentropy-base.c`)
in Lean 4, together with theorems settling the specification claims.

Machine integers (`__u64`) are modelled as `Nat` with explicit reduction
`% 2^64` wherever C truncation can matter.  The external nanosecond timer
`jent_get_nstime` is modelled by an arbitrary trace `Nat → Nat` of timer
readings together with a position index threaded through the state; each
call to the timer consumes one reading.  The predicate `jent_fips_enabled`
is an explicit boolean parameter.  The von-Neumann unbiasing loop of the
source is not structurally terminating, so it is embedded with explicit
fuel and returns `Option`: `none` means the fuel was exhausted.
-/

namespace Jent

set_option maxRecDepth 100000

/-- `DATA_SIZE_BITS` of the source: the pool `data` is a 64 bit value. -/
def DATA_SIZE_BITS : Nat := 64

/-- Modelled from the spec: `TIME_ENTROPY_BITS` (TEB) is defined in the
header `jitterentropy.h`, which is not among the sources; the spec fixes
its canonical build value to 1 (legal range 1..8). -/
def TIME_ENTROPY_BITS : Nat := 1

/-- `TESTLOOPCOUNT` of `jent_entropy_init`. -/
def TESTLOOPCOUNT : Nat := 300

/-- `CLEARCACHE` of `jent_entropy_init`. -/
def CLEARCACHE : Nat := 100

/-- Modelled from the spec: `rol64`, the 64-bit rotate-left used by the pool
accumulation and the stir step (defined in the missing header; §4.7 of the
spec calls it `rotate_left_64`). -/
def rol64 (x n : Nat) : Nat := ((x <<< n) % 2 ^ 64) ||| (x >>> (64 - n))

/-- The entropy collector (`struct rand_data`).  The scratch memory of the
memory-access noise source is modelled as an optional byte array
(`mem = none` models a NULL `->mem` pointer). -/
structure RandData where
  data : Nat
  old_data : Nat
  prev_time : Nat
  fips_fail : Bool
  mem : Option (Nat → Nat)
  memlocation : Nat
  memblocksize : Nat
  memblocks : Nat
  memaccessloops : Nat
  osr : Nat
  stir : Bool
  disable_unbias : Bool

/-- The state threaded through the embedded operations: the collector, the
position of the next unread timer reading in the trace, and a ghost counter
of how many jitter measurements (`jent_measure_jitter` invocations) have
been performed.  The ghost counter influences nothing; it only observes. -/
structure JState where
  ec : RandData
  pos : Nat
  measures : Nat

/-- One step of the `jent_loop_shuffle` folding loop:
`shuffle ^= time & mask; time = time >> bits;`. -/
def shuffleStep (bits mask : Nat) (p : Nat × Nat) (_ : Nat) : Nat × Nat :=
  (p.1 ^^^ (p.2 &&& mask), p.2 >>> bits)

/-- `jent_loop_shuffle`: derive a loop count from one timer reading (XORed
with the pool when a collector is given), folded in `bits`-wide windows,
plus the lower bound `1 << mn`.  Returns the loop count and the new trace
position. -/
def jent_loop_shuffle (trace : Nat → Nat) (ecData : Option Nat)
    (bits mn : Nat) (pos : Nat) : Nat × Nat :=
  let time := trace pos % 2 ^ 64
  let time := match ecData with
    | some d => time ^^^ d
    | none => time
  let mask := 2 ^ bits - 1
  let shuffle := ((List.range (DATA_SIZE_BITS / bits)).foldl
    (shuffleStep bits mask) (0, time)).1
  (shuffle + 2 ^ mn, pos + 1)

/-- One pass of the inner loop of `jent_fold_time` for window width `teb`:
`new ^= ((time << (64 - teb*i)) >> (64 - teb))` for `i = 1 .. 64/teb`
(the source loop runs `i` from `1` to `DATA_SIZE_BITS / TIME_ENTROPY_BITS`;
here `i+1` ranges over it as `i` ranges over `List.range`). -/
def foldOnce (teb t : Nat) : Nat :=
  (List.range (DATA_SIZE_BITS / teb)).foldl
    (fun nw i =>
      nw ^^^ (((t <<< (DATA_SIZE_BITS - teb * (i + 1))) % 2 ^ 64) >>>
        (DATA_SIZE_BITS - teb)))
    0

/-- The outer (`j`) loop of `jent_fold_time`: every pass resets `new` to 0
and recomputes the identical window XOR of the same `time`, so after `cnt`
passes `new` is `0` for `cnt = 0` and `foldOnce` otherwise.  The repetition
exists in the source only to consume measurable time. -/
def foldPasses (teb t : Nat) : Nat → Nat
  | 0 => 0
  | _ + 1 => foldOnce teb t

/-- `jent_fold_time`: obtain the loop count from the shuffler (always run,
then overridden when a non-zero `loop_cnt` is supplied), perform the fold
passes.  Returns `(folded, fold_loop_cnt, new position)`. -/
def jent_fold_time (trace : Nat → Nat) (ecData : Option Nat)
    (time loop_cnt : Nat) (pos : Nat) : Nat × Nat × Nat :=
  let sh := jent_loop_shuffle trace ecData 4 0 pos
  let fold_loop_cnt := if loop_cnt ≠ 0 then loop_cnt else sh.1
  (foldPasses TIME_ENTROPY_BITS time fold_loop_cnt, fold_loop_cnt, sh.2)

/-- One iteration of the `jent_memaccess` walk: read-modify-write one byte,
then advance the location with wrap-around. -/
def memaccessStep (ec : RandData) (_ : Nat) : RandData :=
  match ec.mem with
  | none => ec
  | some m =>
    let loc := ec.memlocation
    let wrap := ec.memblocksize * ec.memblocks
    { ec with
      mem := some (fun j => if j = loc then (m j + 1) &&& 0xff else m j)
      memlocation := (loc + ec.memblocksize - 1) % wrap }

/-- `jent_memaccess`: no-op for a NULL memory block, otherwise
`memaccessloops` read-modify-write walk steps. -/
def jent_memaccess (s : JState) : JState :=
  match s.ec.mem with
  | none => s
  | some _ =>
    { s with ec := (List.range s.ec.memaccessloops).foldl memaccessStep s.ec }

/-- `jent_measure_jitter`: memory-access noise, one timer reading, the
delta to `prev_time` (64-bit wrap-around subtraction), and the fold of the
delta with shuffler-driven loop count.  Returns the folded value and the new
state; the ghost measurement counter goes up by one. -/
def jent_measure_jitter (trace : Nat → Nat) (s : JState) : Nat × JState :=
  let s := jent_memaccess s
  let time := trace s.pos % 2 ^ 64
  let delta := (time + (2 ^ 64 - s.ec.prev_time % 2 ^ 64)) % 2 ^ 64
  let ec := { s.ec with prev_time := time }
  let f := jent_fold_time trace (some ec.data) delta 0 (s.pos + 1)
  (f.1, { ec := ec, pos := f.2.2, measures := s.measures + 1 })

/-- `jent_unbiased_bit`: von-Neumann unbiasing over pairs of jitter samples,
embedded with fuel for the unbounded `do { } while (1)` loop.  When
`disable_unbias` is set a single sample is returned directly (no fuel is
consumed). -/
def jent_unbiased_bit (trace : Nat → Nat) : Nat → JState → Option (Nat × JState)
  | fuel, s =>
    if s.ec.disable_unbias then some (jent_measure_jitter trace s)
    else
      match fuel with
      | 0 => none
      | fuel + 1 =>
        let m1 := jent_measure_jitter trace s
        let m2 := jent_measure_jitter trace m1.2
        if m1.1 = m2.1 then jent_unbiased_bit trace fuel m2.2
        else some ((if m1.1 = 1 then 1 else 0), m2.2)

/-- The 64-bit constant of `jent_stir_pool` derived from the first two SHA-1
initialisation vectors (`constant.u32[1] = 0x67452301`,
`constant.u32[0] = 0xefcdab89`; little-endian union composition). -/
def SHA1_CONST : Nat := 0x67452301efcdab89

/-- The start value of the mixer variable of `jent_stir_pool`
(`mixer.u32[1] = 0x98badcfe`, `mixer.u32[0] = 0x10325476`). -/
def SHA1_MIX0 : Nat := 0x98badcfe10325476

/-- One iteration of the `jent_stir_pool` loop: XOR the constant into the
mixer when bit `i` of `data` is set, then rotate the mixer left by one. -/
def stirStep (d : Nat) (m : Nat) (i : Nat) : Nat :=
  rol64 (if (d >>> i) &&& 1 = 1 then m ^^^ SHA1_CONST else m) 1

/-- The mixer value computed by the loop of `jent_stir_pool`. -/
def jent_mixer (d : Nat) : Nat :=
  (List.range DATA_SIZE_BITS).foldl (stirStep d) SHA1_MIX0

/-- `jent_stir_pool` as a pure function of the pool:
`entropy_collector->data ^= mixer.u64`. -/
def jent_stir_pool (d : Nat) : Nat := d ^^^ jent_mixer d

/-- The number of entropy collection loops of `jent_gen_entropy`:
`(((DATA_SIZE_BITS - 1) / TIME_ENTROPY_BITS) + 1) * osr`. -/
def genRounds (osr : Nat) : Nat :=
  ((DATA_SIZE_BITS - 1) / TIME_ENTROPY_BITS + 1) * osr

/-- The body of the `jent_gen_entropy` loop for iteration `k`: prime
`prev_time` with a throwaway measurement on the first iteration, draw one
unbiased sample, XOR it into the pool and rotate the pool left by
`TIME_ENTROPY_BITS`.  (The source also calls the statistics-only hook
`jent_bit_count`, which is a no-op outside statistics builds and is
therefore omitted.) -/
def genBody (trace : Nat → Nat) (fuel : Nat) (s : JState) (k : Nat) :
    Option JState :=
  let s1 := if k = 0 then (jent_measure_jitter trace s).2 else s
  match jent_unbiased_bit trace fuel s1 with
  | none => none
  | some (data, s2) =>
    some { s2 with
      ec := { s2.ec with
        data := rol64 (s2.ec.data ^^^ data) TIME_ENTROPY_BITS } }

/-- `jent_gen_entropy`: one full generation pass filling the 64-bit pool,
followed by the stir step when stirring is enabled. -/
def jent_gen_entropy (trace : Nat → Nat) (fuel : Nat) (s : JState) :
    Option JState :=
  ((List.range (genRounds s.ec.osr)).foldlM (genBody trace fuel) s).map
    (fun s1 =>
      if s1.ec.stir then
        { s1 with ec := { s1.ec with data := jent_stir_pool s1.ec.data } }
      else s1)

/-- `jent_fips_test`: the FIPS 140-2 continuous test.  Returns the `int`
result (`0` pass, `-1` fail) and the new state; `fe` is the external
`jent_fips_enabled()` predicate. -/
def jent_fips_test (trace : Nat → Nat) (fe : Bool) (fuel : Nat) (s : JState) :
    Option (Int × JState) :=
  if !fe then some (0, s)
  else if s.ec.fips_fail then some (-1, s)
  else
    let primed : Option JState :=
      if s.ec.old_data = 0 then
        jent_gen_entropy trace fuel
          { s with ec := { s.ec with old_data := s.ec.data } }
      else some s
    primed.bind fun s1 =>
      if s1.ec.data = s1.ec.old_data then
        some (-1, { s1 with ec := { s1.ec with fips_fail := true } })
      else
        some (0, { s1 with ec := { s1.ec with old_data := s1.ec.data } })

/-- The `tocopy` low-order bytes of the 64-bit pool, as copied out by the
`memcpy` of `jent_read_entropy` (little-endian byte order). -/
def bytesOf (data tocopy : Nat) : List Nat :=
  (List.range tocopy).map (fun i => (data >>> (8 * i)) &&& 0xff)

/-- The `while (0 < len)` loop of `jent_read_entropy`.  `Sum.inl` is the
early error return (result, bytes copied so far, state), `Sum.inr` is
normal loop completion. -/
def readLoop (trace : Nat → Nat) (fe : Bool) (fuel : Nat) :
    Nat → List Nat → JState → Option ((Int × List Nat × JState) ⊕ (List Nat × JState))
  | 0, acc, s => some (Sum.inr (acc, s))
  | len + 1, acc, s =>
    (jent_gen_entropy trace fuel s).bind fun s1 =>
      (jent_fips_test trace fe fuel s1).bind fun rs =>
        if rs.1 < 0 then some (Sum.inl (rs.1, acc, rs.2))
        else
          let tocopy := min (DATA_SIZE_BITS / 8) (len + 1)
          readLoop trace fe fuel (len + 1 - tocopy)
            (acc ++ bytesOf rs.2.ec.data tocopy) rs.2
  termination_by len => len
  decreasing_by
    simp only [DATA_SIZE_BITS]
    omega

/-- `jent_read_entropy` for a non-NULL collector: serve `len` bytes, then
(unless the `SECURE_MEMORY` build switch `secure` is set) run one extra
scrub generation pass whose output is discarded.  Returns the `int` result
(`len` on success, the negative error on failure), the bytes written to the
caller's buffer, and the final state. -/
def jent_read_entropy (trace : Nat → Nat) (fe secure : Bool) (fuel : Nat)
    (s : JState) (len : Nat) : Option (Int × List Nat × JState) :=
  (readLoop trace fe fuel len [] s).bind
    (Sum.elim (fun e => some e)
      (fun as =>
        if secure then some ((len : Int), as.1, as.2)
        else (jent_gen_entropy trace fuel as.2).map
          (fun s2 => ((len : Int), as.1, s2))))

/-- The result of `jent_entropy_init`, named after the error macros of the
source (their integer values live in the missing header; only their
distinctness matters). -/
inductive InitResult where
  | ok
  | ENOTIME
  | ECOARSETIME
  | EMINVARIATION
  | ENOMONOTONIC
  | EVARVAR
  | EMINVARVAR
deriving DecidableEq, Repr

/-- The bookkeeping accumulated by the `jent_entropy_init` loop. -/
structure InitStats where
  delta_sum : Nat
  old_delta : Nat
  time_backwards : Nat
  count_var : Nat
  count_mod : Nat
deriving DecidableEq, Repr

/-- The measurement loop of `jent_entropy_init`: `n` iterations remaining,
`i` the current loop index, `pos` the trace position.  Each iteration reads
the timer, folds the reading with fixed loop count `1 << MIN_FOLD_LOOP_BIT
= 1` (the fold still consumes the shuffler's timer reading), reads the
timer again, and applies the per-iteration checks and the bookkeeping of
the source. -/
def initLoop (trace : Nat → Nat) :
    Nat → Nat → Nat → InitStats → Except InitResult InitStats
  | 0, _, _, st => .ok st
  | n + 1, i, pos, st =>
    let time := trace pos % 2 ^ 64
    let f := jent_fold_time trace none time 1 (pos + 1)
    let pos2 := f.2.2
    let time2 := trace pos2 % 2 ^ 64
    if time = 0 ∨ time2 = 0 then .error .ENOTIME
    else
      let delta := (time2 + (2 ^ 64 - time)) % 2 ^ 64
      if delta = 0 then .error .ECOARSETIME
      else if TIME_ENTROPY_BITS > delta then .error .EMINVARIATION
      else if CLEARCACHE > i then initLoop trace n (i + 1) (pos2 + 1) st
      else
        let tb := if ¬ time2 > time then st.time_backwards + 1
                  else st.time_backwards
        let cm := if delta % 100 = 0 then st.count_mod + 1 else st.count_mod
        let cv := if i ≠ 0 then
            (if delta ≠ st.old_delta then st.count_var + 1 else st.count_var)
          else st.count_var
        let ds := if i ≠ 0 then
            (if delta > st.old_delta then
              (st.delta_sum + (delta - st.old_delta)) % 2 ^ 64
            else (st.delta_sum + (st.old_delta - delta)) % 2 ^ 64)
          else st.delta_sum
        initLoop trace n (i + 1) (pos2 + 1) ⟨ds, delta, tb, cv, cm⟩

/-- The post-checks of `jent_entropy_init` on the accumulated bookkeeping.
Note the mean-variation check embeds the C expression
`!(delta_sum / TESTLOOPCOUNT) > TIME_ENTROPY_BITS`, which by C precedence
is `(!(delta_sum / TESTLOOPCOUNT)) > TIME_ENTROPY_BITS`: the logical `!`
yields `0` or `1`, which is then compared with `TIME_ENTROPY_BITS`. -/
def initPost (st : InitStats) : InitResult :=
  if 3 < st.time_backwards then .ENOMONOTONIC
  else if st.delta_sum = 0 then .EVARVAR
  else if (if st.delta_sum / TESTLOOPCOUNT = 0 then 1 else 0) >
      TIME_ENTROPY_BITS then .EMINVARVAR
  else if TESTLOOPCOUNT / 10 * 9 < st.count_mod then .ECOARSETIME
  else .ok

/-- `jent_entropy_init`: the startup health test over a timer trace. -/
def jent_entropy_init (trace : Nat → Nat) : InitResult :=
  match initLoop trace (TESTLOOPCOUNT + CLEARCACHE) 0 0 ⟨0, 0, 0, 0, 0⟩ with
  | .error e => e
  | .ok st => initPost st

/-! ## Definitions following the spec's words, for comparison -/

/-- The fold formula as the spec states it (§8 property 1): the XOR of all
`teb`-bit windows of `t`, `XOR_{i=0..N-1} ((t >> (teb*i)) & ((1 << teb) - 1))`
with `N = 64 / teb`.  This definition follows the spec's words; `foldOnce`
follows the source. -/
def specFold (teb t : Nat) : Nat :=
  (List.range (64 / teb)).foldl
    (fun acc i => acc ^^^ ((t >>> (teb * i)) &&& ((1 <<< teb) - 1))) 0

/-! ## Concrete traces and collector states used by the witnesses -/

/-- A timer that always reads 0: every delta is 0, so every folded jitter
sample is 0. -/
def zeroTrace : Nat → Nat := fun _ => 0

/-- A timer that always reads 1: the first delta from `prev_time = 0` is 1,
every later delta is 0, so the first two samples differ. -/
def oneTrace : Nat → Nat := fun _ => 1

/-- A timer trace for `jent_entropy_init`: iteration `i` reads
`time = 2i+1`, the shuffler reads `1`, and `time2 = 2i+2`, so every
iteration has `delta = 1` (non-zero, monotone, not a multiple of 100). -/
def initTestTrace : Nat → Nat := fun n =>
  if n % 3 = 0 then 2 * (n / 3) + 1
  else if n % 3 = 1 then 1
  else 2 * (n / 3) + 2

/-- A collector with no memory block, oversampling rate 1, stirring off and
unbiasing disabled, whose pool holds 5. -/
def baseEC : RandData :=
  { data := 5, old_data := 0, prev_time := 0, fips_fail := false,
    mem := none, memlocation := 0, memblocksize := 0, memblocks := 0,
    memaccessloops := 0, osr := 1, stir := false, disable_unbias := true }

/-- State over `baseEC` at trace position 0. -/
def baseState : JState := { ec := baseEC, pos := 0, measures := 0 }

/-- State whose collector has von-Neumann unbiasing enabled and an all-zero
pool, parameterised by trace position and measurement count. -/
def vnState (p m : Nat) : JState :=
  { ec := { baseEC with data := 0, disable_unbias := false },
    pos := p, measures := m }

/-- State whose collector has the sticky FIPS failure flag set. -/
def fipsFailedState : JState :=
  { ec := { baseEC with fips_fail := true }, pos := 0, measures := 0 }

/-- Projection of an `initLoop` result to its numeric bookkeeping
`(delta_sum, old_delta, time_backwards, count_var, count_mod)`. -/
def statsView : Except InitResult InitStats →
    Option (Nat × Nat × Nat × Nat × Nat)
  | .error _ => none
  | .ok st =>
    some (st.delta_sum, st.old_delta, st.time_backwards, st.count_var,
      st.count_mod)

/-! ## The fold pass: window extraction and range -/

/-- One window term of the source's fold loop equals the corresponding
window term of the spec's formula. -/
lemma fold_term_eq (teb i t : Nat) (h : teb * (i + 1) ≤ 64) :
    ((t <<< (64 - teb * (i + 1))) % 2 ^ 64) >>> (64 - teb) =
      (t >>> (teb * i)) &&& (2 ^ teb - 1) := by
  have hsplit : teb * (i + 1) = teb * i + teb := by ring
  have e1 : (2 : Nat) ^ 64 = 2 ^ (64 - teb * (i + 1)) * 2 ^ (teb * (i + 1)) := by
    rw [← pow_add]
    congr 1
    omega
  have e2 : (2 : Nat) ^ (64 - teb) =
      2 ^ (64 - teb * (i + 1)) * 2 ^ (teb * i) := by
    rw [← pow_add]
    congr 1
    omega
  have e3 : (2 : Nat) ^ (teb * i) * 2 ^ teb = 2 ^ (teb * (i + 1)) := by
    rw [← pow_add, hsplit]
  rw [Nat.shiftLeft_eq, Nat.shiftRight_eq_div_pow, Nat.shiftRight_eq_div_pow,
    Nat.and_pow_two_sub_one_eq_mod, ← Nat.mod_mul_right_div_self, e1, e2, e3,
    Nat.mul_comm t, Nat.mul_mod_mul_left,
    Nat.mul_div_mul_left _ _ (Nat.pos_pow_of_pos _ (by omega))]

/-- Each window term of the source's fold loop is below `2 ^ teb`. -/
lemma fold_term_lt (teb k t : Nat) :
    ((t <<< k) % 2 ^ 64) >>> (64 - teb) < 2 ^ teb := by
  have hx : (t <<< k) % 2 ^ 64 < 2 ^ 64 := Nat.mod_lt _ (by positivity)
  rw [Nat.shiftRight_eq_div_pow]
  rcases le_or_lt teb 64 with hle | hlt
  · rw [Nat.div_lt_iff_lt_mul (by positivity), ← pow_add]
    calc (t <<< k) % 2 ^ 64 < 2 ^ 64 := hx
    _ ≤ 2 ^ (teb + (64 - teb)) := by
      apply Nat.pow_le_pow_right (by omega)
      omega
  · calc (t <<< k) % 2 ^ 64 / 2 ^ (64 - teb) ≤ (t <<< k) % 2 ^ 64 :=
      Nat.div_le_self _ _
    _ < 2 ^ 64 := hx
    _ < 2 ^ teb := Nat.pow_lt_pow_right (by omega) hlt

/-- XOR-accumulating a list of values below `2 ^ B` stays below `2 ^ B`. -/
lemma foldl_xor_lt (f : Nat → Nat) (B : Nat) :
    ∀ (l : List Nat) (acc : Nat), acc < 2 ^ B → (∀ i ∈ l, f i < 2 ^ B) →
      l.foldl (fun a i => a ^^^ f i) acc < 2 ^ B := by
  intro l
  induction l with
  | nil => intro acc hacc _; simpa using hacc
  | cons x xs ih =>
    intro acc hacc hf
    simp only [List.foldl_cons]
    exact ih _ (Nat.xor_lt_two_pow hacc (hf x (by simp)))
      (fun i hi => hf i (by simp [hi]))

/-- One pass of the source's fold loop equals the spec's window-XOR formula. -/
lemma foldOnce_eq_specFold (teb t : Nat) :
    foldOnce teb t = specFold teb t := by
  unfold foldOnce specFold DATA_SIZE_BITS
  have hone : (1 : Nat) <<< teb - 1 = 2 ^ teb - 1 := by
    rw [Nat.shiftLeft_eq, one_mul]
  rw [hone]
  apply List.foldl_ext
  intro a i hi
  rw [List.mem_range] at hi
  congr 1
  apply fold_term_eq
  have h1 : i + 1 ≤ 64 / teb := hi
  calc teb * (i + 1) ≤ teb * (64 / teb) := Nat.mul_le_mul_left teb h1
    _ ≤ 64 := Nat.mul_div_le 64 teb

/-- One pass of the source's fold loop produces a value below `2 ^ teb`. -/
lemma foldOnce_lt (teb t : Nat) : foldOnce teb t < 2 ^ teb := by
  unfold foldOnce
  exact foldl_xor_lt _ teb _ 0 (by positivity) (fun i _ => fold_term_lt teb _ t)

/-- The result of `foldPasses` is below `2 ^ teb` for every pass count. -/
lemma foldPasses_lt (teb t cnt : Nat) : foldPasses teb t cnt < 2 ^ teb := by
  cases cnt with
  | zero =>
    simp only [foldPasses]
    positivity
  | succ n => exact foldOnce_lt teb t

/-- A jitter measurement yields a folded value below
`2 ^ TIME_ENTROPY_BITS`. -/
lemma measure_fst_lt (trace : Nat → Nat) (s : JState) :
    (jent_measure_jitter trace s).1 < 2 ^ TIME_ENTROPY_BITS := by
  simp only [jent_measure_jitter, jent_fold_time]
  exact foldPasses_lt _ _ _

/-! ## The all-zero timer: every sample is 0 and the unbiaser never
returns -/

/-- On the all-zero timer trace a measurement from `vnState` yields the
sample 0 and only advances the trace position and the ghost counter. -/
lemma measure_vn_zero (p m : Nat) :
    jent_measure_jitter zeroTrace (vnState p m) =
      (0, vnState (p + 1 + 1) (m + 1)) := by
  have hsh : ((List.range (DATA_SIZE_BITS / 4)).foldl
      (shuffleStep 4 (2 ^ 4 - 1)) (0, 0)).1 = 0 := by decide
  have hfold : foldOnce TIME_ENTROPY_BITS 0 = 0 := by decide
  simp [jent_measure_jitter, jent_memaccess, vnState, baseEC, zeroTrace,
    jent_fold_time, jent_loop_shuffle, foldPasses, hsh, hfold]

/-- The collector of `vnState` has unbiasing enabled. -/
lemma vnState_disable (p m : Nat) :
    (vnState p m).ec.disable_unbias = false := rfl

/-- On the all-zero timer trace the von-Neumann loop never returns:
every drawn pair is `(0, 0)`, whatever the fuel. -/
lemma unbiased_vn_zero_none (fuel : Nat) :
    ∀ p m, jent_unbiased_bit zeroTrace fuel (vnState p m) = none := by
  induction fuel with
  | zero =>
    intro p m
    rw [jent_unbiased_bit.eq_def]
    simp [vnState_disable]
  | succ fuel ih =>
    intro p m
    rw [jent_unbiased_bit.eq_def]
    simp only [vnState_disable, Bool.false_eq_true, if_false, measure_vn_zero]
    simpa using ih (p + 1 + 1 + 1 + 1) (m + 1 + 1)

/-! ## Termination of the von-Neumann loop -/

/-- One attempt of the von-Neumann loop: the two consecutive samples and
the state after drawing them. -/
def twoMeasures (trace : Nat → Nat) (s : JState) : Nat × Nat × JState :=
  let m1 := jent_measure_jitter trace s
  let m2 := jent_measure_jitter trace m1.2
  (m1.1, m2.1, m2.2)

/-- The state after `n` attempts of the von-Neumann loop. -/
def iterPairs (trace : Nat → Nat) : Nat → JState → JState
  | 0, s => s
  | n + 1, s => iterPairs trace n (twoMeasures trace s).2.2

/-- The two samples drawn by attempt `n` of the von-Neumann loop differ. -/
def PairDiffersAt (trace : Nat → Nat) (s : JState) (n : Nat) : Prop :=
  (twoMeasures trace (iterPairs trace n s)).1 ≠
    (twoMeasures trace (iterPairs trace n s)).2.1

/-- If attempt `n` draws a differing pair, fuel `n + 1` suffices for the
unbiaser to return. -/
lemma unbiased_isSome_of_pairDiffers (trace : Nat → Nat) :
    ∀ (n : Nat) (s : JState), PairDiffersAt trace s n →
      (jent_unbiased_bit trace (n + 1) s).isSome := by
  intro n
  induction n with
  | zero =>
    intro s hn
    rw [jent_unbiased_bit.eq_def]
    by_cases hd : s.ec.disable_unbias
    · simp [hd]
    · simp only [hd, Bool.false_eq_true, if_false]
      simp only [PairDiffersAt, iterPairs, twoMeasures] at hn
      simp [hn]
  | succ n ih =>
    intro s hn
    rw [jent_unbiased_bit.eq_def]
    by_cases hd : s.ec.disable_unbias
    · simp [hd]
    · simp only [hd, Bool.false_eq_true, if_false]
      by_cases heq : (jent_measure_jitter trace s).1 =
          (jent_measure_jitter trace (jent_measure_jitter trace s).2).1
      · simp only [heq, if_pos rfl]
        have hn' : PairDiffersAt trace
            (twoMeasures trace s).2.2 n := by
          simpa [PairDiffersAt, iterPairs] using hn
        simpa [twoMeasures] using ih _ hn'
      · simp [heq]

/-! ## Field preservation and measurement counting -/

/-- The control fields of the collector that no measurement, unbiasing or
generation step modifies. -/
def ctrl (s : JState) : Nat × Bool × Nat × Bool × Bool :=
  (s.ec.old_data, s.ec.fips_fail, s.ec.osr, s.ec.stir, s.ec.disable_unbias)

/-- The memory walk modifies only the memory block and the location. -/
lemma memaccessStep_fields (ec : RandData) (k : Nat) :
    (memaccessStep ec k).data = ec.data ∧
    (memaccessStep ec k).old_data = ec.old_data ∧
    (memaccessStep ec k).prev_time = ec.prev_time ∧
    (memaccessStep ec k).fips_fail = ec.fips_fail ∧
    (memaccessStep ec k).osr = ec.osr ∧
    (memaccessStep ec k).stir = ec.stir ∧
    (memaccessStep ec k).disable_unbias = ec.disable_unbias := by
  unfold memaccessStep
  cases ec.mem <;> simp

/-- The whole memory walk modifies only the memory block and the
location. -/
lemma memaccess_foldl_fields (l : List Nat) : ∀ (ec : RandData),
    ((l.foldl memaccessStep ec).data = ec.data ∧
    (l.foldl memaccessStep ec).old_data = ec.old_data ∧
    (l.foldl memaccessStep ec).prev_time = ec.prev_time ∧
    (l.foldl memaccessStep ec).fips_fail = ec.fips_fail ∧
    (l.foldl memaccessStep ec).osr = ec.osr ∧
    (l.foldl memaccessStep ec).stir = ec.stir ∧
    (l.foldl memaccessStep ec).disable_unbias = ec.disable_unbias) := by
  induction l with
  | nil => intro ec; simp
  | cons x xs ih =>
    intro ec
    simp only [List.foldl_cons]
    obtain ⟨a1, a2, a3, a4, a5, a6, a7⟩ := memaccessStep_fields ec x
    obtain ⟨b1, b2, b3, b4, b5, b6, b7⟩ := ih (memaccessStep ec x)
    exact ⟨b1.trans a1, b2.trans a2, b3.trans a3, b4.trans a4, b5.trans a5,
      b6.trans a6, b7.trans a7⟩

/-- `jent_memaccess` preserves everything except the memory fields. -/
lemma memaccess_fields (s : JState) :
    (jent_memaccess s).pos = s.pos ∧
    (jent_memaccess s).measures = s.measures ∧
    (jent_memaccess s).ec.data = s.ec.data ∧
    (jent_memaccess s).ec.old_data = s.ec.old_data ∧
    (jent_memaccess s).ec.prev_time = s.ec.prev_time ∧
    (jent_memaccess s).ec.fips_fail = s.ec.fips_fail ∧
    (jent_memaccess s).ec.osr = s.ec.osr ∧
    (jent_memaccess s).ec.stir = s.ec.stir ∧
    (jent_memaccess s).ec.disable_unbias = s.ec.disable_unbias := by
  unfold jent_memaccess
  cases hm : s.ec.mem with
  | none => simp
  | some m =>
    simp only [hm]
    obtain ⟨a1, a2, a3, a4, a5, a6, a7⟩ :=
      memaccess_foldl_fields (List.range s.ec.memaccessloops) s.ec
    exact ⟨trivial, trivial, a1, a2, a3, a4, a5, a6, a7⟩

/-- A measurement adds one to the ghost counter, does not touch the pool,
and preserves the control fields. -/
lemma measure_fields (trace : Nat → Nat) (s : JState) :
    (jent_measure_jitter trace s).2.measures = s.measures + 1 ∧
    (jent_measure_jitter trace s).2.ec.data = s.ec.data ∧
    ctrl (jent_measure_jitter trace s).2 = ctrl s := by
  obtain ⟨p1, p2, p3, p4, p5, p6, p7, p8, p9⟩ := memaccess_fields s
  simp [jent_measure_jitter, ctrl, p1, p2, p3, p4, p5, p6, p7, p8, p9]

/-- With `disable_unbias` set the unbiaser returns one raw sample,
whatever the fuel. -/
lemma unbiased_disable (trace : Nat → Nat) (fuel : Nat) (s : JState)
    (h : s.ec.disable_unbias = true) :
    jent_unbiased_bit trace fuel s = some (jent_measure_jitter trace s) := by
  rw [jent_unbiased_bit.eq_def]
  simp [h]

/-- A returning unbiaser call does not touch the pool and preserves the
control fields. -/
lemma unbiased_fields (trace : Nat → Nat) :
    ∀ (fuel : Nat) (s : JState) (v : Nat) (s' : JState),
      jent_unbiased_bit trace fuel s = some (v, s') →
      ctrl s' = ctrl s ∧ s'.ec.data = s.ec.data := by
  intro fuel
  induction fuel with
  | zero =>
    intro s v s' h
    rw [jent_unbiased_bit.eq_def] at h
    by_cases hd : s.ec.disable_unbias
    · simp only [hd, if_pos] at h
      obtain ⟨m1, m2, m3⟩ := measure_fields trace s
      have hp : jent_measure_jitter trace s = (v, s') := by simpa using h
      rw [hp] at m2 m3
      exact ⟨m3, m2⟩
    · simp [hd] at h
  | succ fuel ih =>
    intro s v s' h
    rw [jent_unbiased_bit.eq_def] at h
    by_cases hd : s.ec.disable_unbias
    · simp only [hd, if_pos] at h
      obtain ⟨m1, m2, m3⟩ := measure_fields trace s
      have hp : jent_measure_jitter trace s = (v, s') := by simpa using h
      rw [hp] at m2 m3
      exact ⟨m3, m2⟩
    · simp only [hd, Bool.false_eq_true, if_false] at h
      obtain ⟨a1, a2, a3⟩ := measure_fields trace s
      obtain ⟨b1, b2, b3⟩ :=
        measure_fields trace (jent_measure_jitter trace s).2
      by_cases heq : (jent_measure_jitter trace s).1 =
          (jent_measure_jitter trace (jent_measure_jitter trace s).2).1
      · simp only [heq, if_pos rfl] at h
        obtain ⟨c1, c2⟩ := ih _ _ _ h
        exact ⟨c1.trans (b3.trans a3), c2.trans (b2.trans a2)⟩
      · rw [if_neg heq] at h
        simp only [Option.some.injEq, Prod.mk.injEq] at h
        rw [h.2] at b2 b3
        exact ⟨b3.trans a3, b2.trans a2⟩

/-- Unfolding `genBody` once the unbiaser's return value is known. -/
lemma genBody_eq (trace : Nat → Nat) (fuel : Nat) (s : JState) (k v : Nat)
    (s2 : JState)
    (h : jent_unbiased_bit trace fuel
      (if k = 0 then (jent_measure_jitter trace s).2 else s) = some (v, s2)) :
    genBody trace fuel s k = some { s2 with
      ec := { s2.ec with
        data := rol64 (s2.ec.data ^^^ v) TIME_ENTROPY_BITS } } := by
  simp only [genBody]
  rw [h]

/-- One generation-loop iteration with unbiasing disabled: it always
returns, performs two measurements on the priming iteration `k = 0` and
one otherwise, and preserves the control fields. -/
lemma genBody_disable (trace : Nat → Nat) (fuel : Nat) (s : JState) (k : Nat)
    (hd : s.ec.disable_unbias = true) :
    ∃ s', genBody trace fuel s k = some s' ∧
      s'.measures = s.measures + (if k = 0 then 2 else 1) ∧
      ctrl s' = ctrl s := by
  by_cases hk : k = 0
  · obtain ⟨a1, a2, a3⟩ := measure_fields trace s
    have hd1 : (jent_measure_jitter trace s).2.ec.disable_unbias = true := by
      have := congrArg (fun c => c.2.2.2.2) a3
      simpa [ctrl] using this.trans hd
    have hu : jent_unbiased_bit trace fuel
        (if k = 0 then (jent_measure_jitter trace s).2 else s) =
        some ((jent_measure_jitter trace (jent_measure_jitter trace s).2).1,
          (jent_measure_jitter trace (jent_measure_jitter trace s).2).2) := by
      rw [if_pos hk, unbiased_disable trace fuel _ hd1]
    obtain ⟨b1, b2, b3⟩ := measure_fields trace (jent_measure_jitter trace s).2
    refine ⟨_, genBody_eq trace fuel s k _ _ hu, ?_, ?_⟩
    · simp [hk, b1, a1]
    · simpa [ctrl] using b3.trans a3
  · obtain ⟨a1, a2, a3⟩ := measure_fields trace s
    have hu : jent_unbiased_bit trace fuel
        (if k = 0 then (jent_measure_jitter trace s).2 else s) =
        some ((jent_measure_jitter trace s).1,
          (jent_measure_jitter trace s).2) := by
      rw [if_neg hk, unbiased_disable trace fuel _ hd]
    refine ⟨_, genBody_eq trace fuel s k _ _ hu, ?_, ?_⟩
    · simp [hk, a1]
    · simpa [ctrl] using a3

/-- The generation loop with unbiasing disabled: it returns, the ghost
counter grows by the per-iteration costs, and the control fields are
preserved. -/
lemma genFold_disable (trace : Nat → Nat) (fuel : Nat) :
    ∀ (l : List Nat) (s : JState), s.ec.disable_unbias = true →
      ∃ s', l.foldlM (genBody trace fuel) s = some s' ∧
        s'.measures = s.measures +
          (l.map (fun k => if k = 0 then 2 else 1)).sum ∧
        ctrl s' = ctrl s := by
  intro l
  induction l with
  | nil =>
    intro s hd
    exact ⟨s, rfl, by simp, rfl⟩
  | cons x xs ih =>
    intro s hd
    obtain ⟨s1, h1, h2, h3⟩ := genBody_disable trace fuel s x hd
    have hd1 : s1.ec.disable_unbias = true := by
      have := congrArg (fun c => c.2.2.2.2) h3
      simpa [ctrl] using this.trans hd
    obtain ⟨s2, g1, g2, g3⟩ := ih s1 hd1
    refine ⟨s2, ?_, ?_, g3.trans h3⟩
    · rw [List.foldlM_cons, h1]
      exact g1
    · rw [g2, h2]
      simp
      omega

/-- The measurement cost of the generation loop over `List.range n`:
`n` samples plus the one priming measurement of iteration 0. -/
lemma range_cost (n : Nat) (h : 0 < n) :
    ((List.range n).map (fun k => if k = 0 then 2 else 1)).sum = n + 1 := by
  induction n with
  | zero => omega
  | succ n ih =>
    rw [List.range_succ]
    rcases Nat.eq_zero_or_pos n with rfl | hn
    · decide
    · simp [ih hn]
      omega

/-- A generation pass with unbiasing disabled and `osr ≥ 1`: it returns,
the ghost counter grows by exactly `genRounds osr + 1` (the samples plus
the priming measurement), and the control fields are preserved. -/
lemma gen_disable (trace : Nat → Nat) (fuel : Nat) (s : JState)
    (hd : s.ec.disable_unbias = true) (hosr : 0 < s.ec.osr) :
    ∃ s', jent_gen_entropy trace fuel s = some s' ∧
      s'.measures = s.measures + (genRounds s.ec.osr + 1) ∧
      ctrl s' = ctrl s := by
  obtain ⟨s1, h1, h2, h3⟩ :=
    genFold_disable trace fuel (List.range (genRounds s.ec.osr)) s hd
  have hpos : 0 < genRounds s.ec.osr := by
    unfold genRounds DATA_SIZE_BITS TIME_ENTROPY_BITS
    positivity
  rw [range_cost _ hpos] at h2
  unfold jent_gen_entropy
  rw [h1]
  refine ⟨_, rfl, ?_, ?_⟩
  · by_cases hst : s1.ec.stir <;> simp [hst, h2]
  · by_cases hst : s1.ec.stir <;> simpa [hst, ctrl] using h3

/-- One generation-loop iteration preserves the control fields whenever it
returns, also with unbiasing enabled. -/
lemma genBody_ctrl (trace : Nat → Nat) (fuel : Nat) (s : JState) (k : Nat)
    (s' : JState) (h : genBody trace fuel s k = some s') :
    ctrl s' = ctrl s := by
  simp only [genBody] at h
  rcases hu : jent_unbiased_bit trace fuel
      (if k = 0 then (jent_measure_jitter trace s).2 else s) with _ | vs
  · rw [hu] at h
    exact absurd h (by simp)
  · rw [hu] at h
    obtain ⟨v, s2⟩ := vs
    obtain ⟨u1, u2⟩ := unbiased_fields trace fuel _ v s2 hu
    have hs' : s' = { s2 with
        ec := { s2.ec with
          data := rol64 (s2.ec.data ^^^ v) TIME_ENTROPY_BITS } } := by
      simpa [eq_comm] using h
    by_cases hk : k = 0
    · obtain ⟨a1, a2, a3⟩ := measure_fields trace s
      rw [hk, if_pos rfl] at u1
      simp only [hs', ctrl] at *
      simp [u1, a3]
    · rw [if_neg hk] at u1
      simp only [hs', ctrl] at *
      simp [u1]

/-- The generation loop preserves the control fields whenever it
returns. -/
lemma genFold_ctrl (trace : Nat → Nat) (fuel : Nat) :
    ∀ (l : List Nat) (s s' : JState),
      l.foldlM (genBody trace fuel) s = some s' → ctrl s' = ctrl s := by
  intro l
  induction l with
  | nil =>
    intro s s' h
    simp only [List.foldlM_nil, Option.pure_def, Option.some.injEq] at h
    rw [← h]
  | cons x xs ih =>
    intro s s' h
    rw [List.foldlM_cons] at h
    rcases hb : genBody trace fuel s x with _ | s1
    · rw [hb] at h
      exact absurd h (by simp)
    · rw [hb] at h
      simp only [Option.bind_eq_bind, Option.some_bind] at h
      exact (ih s1 s' h).trans (genBody_ctrl trace fuel s x s1 hb)

/-- A generation pass preserves the control fields whenever it returns,
also with unbiasing enabled. -/
lemma gen_ctrl (trace : Nat → Nat) (fuel : Nat) (s s' : JState)
    (h : jent_gen_entropy trace fuel s = some s') : ctrl s' = ctrl s := by
  unfold jent_gen_entropy at h
  rcases hf : (List.range (genRounds s.ec.osr)).foldlM (genBody trace fuel) s
    with _ | s1
  · rw [hf] at h
    exact absurd h (by simp)
  · rw [hf] at h
    have h1 := genFold_ctrl trace fuel _ s s1 hf
    simp only [Option.map, Option.some.injEq] at h
    by_cases hst : s1.ec.stir
    · rw [if_pos hst] at h
      rw [← h]
      simpa [ctrl] using h1
    · rw [if_neg hst] at h
      rw [← h]
      exact h1

/-! ## The FIPS test and the read entry point -/

/-- With FIPS mode disabled the continuous test does nothing. -/
lemma fips_off (trace : Nat → Nat) (fuel : Nat) (s : JState) :
    jent_fips_test trace false fuel s = some (0, s) := by
  simp [jent_fips_test]

/-- With the sticky failure flag set the continuous test fails
immediately. -/
lemma fips_failed_eq (trace : Nat → Nat) (fuel : Nat) (s : JState)
    (h : s.ec.fips_fail = true) :
    jent_fips_test trace true fuel s = some (-1, s) := by
  simp [jent_fips_test, h]

/-- A `read` of a positive length from a collector whose `fips_fail` flag
is set, in FIPS mode: every terminating run returns `-1`. -/
lemma read_fips_failed (trace : Nat → Nat) (secure : Bool) (fuel : Nat)
    (s : JState) (len : Nat) (hf : s.ec.fips_fail = true) (hlen : 0 < len) :
    (jent_read_entropy trace true secure fuel s len).map (fun r => r.1) =
      some (-1) ∨
    jent_read_entropy trace true secure fuel s len = none := by
  obtain ⟨l, rfl⟩ : ∃ l, len = l + 1 := ⟨len - 1, by omega⟩
  unfold jent_read_entropy
  rw [readLoop]
  rcases hg : jent_gen_entropy trace fuel s with _ | s1
  · right
    rfl
  · left
    have hff1 : s1.ec.fips_fail = true := by
      have := congrArg (fun c => c.2.1) (gen_ctrl trace fuel s s1 hg)
      simpa [ctrl] using this.trans hf
    simp only [Option.some_bind]
    rw [fips_failed_eq trace fuel s1 hff1]
    simp only [Option.some_bind]
    rw [if_pos (show ((-1 : Int), s1).1 < 0 by norm_num)]
    rfl

/-- A `read` of 8 bytes with unbiasing disabled, FIPS mode off and the
scrub pass enabled: it returns 8, and the ghost counter grows by two full
generation passes, `2 * (genRounds osr + 1)` measurements. -/
lemma read8_disable (trace : Nat → Nat) (fuel : Nat) (s : JState)
    (hd : s.ec.disable_unbias = true) (hosr : 0 < s.ec.osr) :
    ∃ r, jent_read_entropy trace false false fuel s 8 = some r ∧
      r.1 = 8 ∧ r.2.2.measures = s.measures + 2 * (genRounds s.ec.osr + 1) := by
  obtain ⟨s1, h1, h2, h3⟩ := gen_disable trace fuel s hd hosr
  have hd1 : s1.ec.disable_unbias = true := by
    have := congrArg (fun c => c.2.2.2.2) h3
    simpa [ctrl] using this.trans hd
  have hosr1 : 0 < s1.ec.osr := by
    have := congrArg (fun c => c.2.2.1) h3
    simp only [ctrl] at this
    omega
  obtain ⟨s2, g1, g2, g3⟩ := gen_disable trace fuel s1 hd1 hosr1
  have hosr1' : s1.ec.osr = s.ec.osr := by
    have := congrArg (fun c => c.2.2.1) h3
    simpa [ctrl] using this
  unfold jent_read_entropy
  rw [show (8 : Nat) = 7 + 1 from rfl, readLoop, h1]
  simp only [Option.some_bind]
  rw [fips_off trace fuel s1]
  simp only [Option.some_bind]
  rw [if_neg (show ¬ ((0 : Int), s1).1 < 0 by norm_num)]
  have htc : min (DATA_SIZE_BITS / 8) (7 + 1) = 8 := by decide
  simp only [htc, Nat.sub_self]
  rw [readLoop]
  simp only [Option.some_bind, Sum.elim_inr, Bool.false_eq_true, if_false]
  rw [g1]
  refine ⟨_, rfl, by norm_num, ?_⟩
  simp only [Option.map_some']
  rw [g2, h2, hosr1']
  ring

/-- `read` with `len = 0` skips the loop entirely: no FIPS test, no bytes,
result 0, and only the scrub generation pass runs. -/
lemma read_zero_eq (trace : Nat → Nat) (fe : Bool) (fuel : Nat) (s : JState) :
    jent_read_entropy trace fe false fuel s 0 =
      (jent_gen_entropy trace fuel s).map
        (fun s2 => ((0 : Int), ([] : List Nat), s2)) := by
  unfold jent_read_entropy
  rw [readLoop]
  rcases hg : jent_gen_entropy trace fuel s with _ | s2 <;> simp [hg]

/-! ## The stir step as an affine map over GF(2) -/

/-- Left shift distributes over XOR. -/
lemma shiftLeft_xor_distrib (x y n : Nat) :
    (x ^^^ y) <<< n = (x <<< n) ^^^ (y <<< n) := by
  apply Nat.eq_of_testBit_eq
  intro i
  simp only [Nat.testBit_shiftLeft, Nat.testBit_xor]
  cases hd : decide (n ≤ i) <;> simp

/-- Truncation to `n` bits distributes over XOR. -/
lemma mod_two_pow_xor (x y n : Nat) :
    (x ^^^ y) % 2 ^ n = x % 2 ^ n ^^^ y % 2 ^ n := by
  apply Nat.eq_of_testBit_eq
  intro i
  simp only [Nat.testBit_mod_two_pow, Nat.testBit_xor]
  cases hd : decide (i < n) <;> simp

/-- Right shift distributes over XOR. -/
lemma shiftRight_xor_distrib (x y n : Nat) :
    (x ^^^ y) >>> n = (x >>> n) ^^^ (y >>> n) := by
  apply Nat.eq_of_testBit_eq
  intro i
  simp [Nat.testBit_shiftRight, Nat.testBit_xor]

/-- `rol64 _ 1` keeps 64-bit values 64-bit. -/
lemma rol64_one_lt (z : Nat) (hz : z < 2 ^ 64) : rol64 z 1 < 2 ^ 64 := by
  unfold rol64
  apply Nat.or_lt_two_pow
  · exact Nat.mod_lt _ (by positivity)
  · apply lt_of_le_of_lt _ hz
    rw [Nat.shiftRight_eq_div_pow]
    exact Nat.div_le_self _ _

/-- On 64-bit values the two halves of the rotation are disjoint, so the
OR of `rol64 _ 1` is a XOR. -/
lemma rol64_one_eq_xor (z : Nat) (hz : z < 2 ^ 64) :
    rol64 z 1 = ((z <<< 1) % 2 ^ 64) ^^^ (z >>> 63) := by
  unfold rol64
  apply Nat.eq_of_testBit_eq
  intro i
  simp only [Nat.testBit_or, Nat.testBit_xor]
  rcases i with _ | i
  · have he : z <<< 1 % 18446744073709551616 % 2 = 0 := by
      rw [Nat.shiftLeft_eq, pow_one,
        show (18446744073709551616 : Nat) = 2 * 2 ^ 63 by norm_num,
        Nat.mul_comm z 2, Nat.mul_mod_mul_left]
      simp [Nat.mul_mod_right]
    simp [Nat.testBit_mod_two_pow, Nat.testBit_shiftLeft, he]
  · have hb : Nat.testBit (z >>> 63) (i + 1) = false := by
      rw [Nat.testBit_shiftRight]
      apply Nat.testBit_lt_two_pow
      calc z < 2 ^ 64 := hz
      _ ≤ 2 ^ (63 + (i + 1)) := Nat.pow_le_pow_right (by omega) (by omega)
    have hb' : Nat.testBit (z >>> (64 - 1)) (i + 1) = false := by
      simpa using hb
    simp [hb, hb']

/-- `rol64 _ 1` distributes over XOR on 64-bit values. -/
lemma rol64_one_xor (x y : Nat) (hx : x < 2 ^ 64) (hy : y < 2 ^ 64) :
    rol64 (x ^^^ y) 1 = rol64 x 1 ^^^ rol64 y 1 := by
  rw [rol64_one_eq_xor _ (Nat.xor_lt_two_pow hx hy), rol64_one_eq_xor _ hx,
    rol64_one_eq_xor _ hy, shiftLeft_xor_distrib, mod_two_pow_xor,
    shiftRight_xor_distrib]
  apply Nat.eq_of_testBit_eq
  intro i
  simp [Nat.testBit_xor, Bool.xor_assoc, Bool.xor_comm, Bool.xor_left_comm]

/-- The stir loop body keeps 64-bit values 64-bit. -/
lemma stirStep_lt (d m i : Nat) (hm : m < 2 ^ 64) :
    stirStep d m i < 2 ^ 64 := by
  unfold stirStep
  apply rol64_one_lt
  split
  · exact Nat.xor_lt_two_pow hm (by norm_num [SHA1_CONST])
  · exact hm

/-- `rol64 _ 1` distributes over a XOR of three 64-bit values. -/
lemma rol64_one_xor3 (a b c : Nat) (ha : a < 2 ^ 64) (hb : b < 2 ^ 64)
    (hc : c < 2 ^ 64) :
    rol64 (a ^^^ b ^^^ c) 1 = rol64 a 1 ^^^ rol64 b 1 ^^^ rol64 c 1 := by
  rw [rol64_one_xor (a ^^^ b) c (Nat.xor_lt_two_pow ha hb) hc,
    rol64_one_xor a b ha hb]

/-- The stir loop body is affine: its value on a XOR of two pool values is
the XOR of its values, corrected by its value on the zero pool. -/
lemma stirStep_linear (d1 d2 i m1 m2 m3 : Nat) (h1 : m1 < 2 ^ 64)
    (h2 : m2 < 2 ^ 64) (h3 : m3 < 2 ^ 64) :
    stirStep (d1 ^^^ d2) (m1 ^^^ m2 ^^^ m3) i =
      stirStep d1 m1 i ^^^ stirStep d2 m2 i ^^^ stirStep 0 m3 i := by
  have hC : SHA1_CONST < 2 ^ 64 := by norm_num [SHA1_CONST]
  have hx : ((d1 ^^^ d2) >>> i) &&& 1 =
      ((d1 >>> i) &&& 1) ^^^ ((d2 >>> i) &&& 1) := by
    rw [shiftRight_xor_distrib, Nat.and_xor_distrib_right]
  have hz : ((0 : Nat) >>> i) &&& 1 = 0 := by
    simp
  have t0 : ∀ m : Nat,
      (if (0 : Nat) = 1 then m ^^^ SHA1_CONST else m) = m :=
    fun m => if_neg (by omega)
  have t1 : ∀ m : Nat,
      (if (1 : Nat) = 1 then m ^^^ SHA1_CONST else m) = m ^^^ SHA1_CONST :=
    fun m => if_pos rfl
  have hb1 : (d1 >>> i) &&& 1 = 0 ∨ (d1 >>> i) &&& 1 = 1 := by
    rw [Nat.and_one_is_mod]
    omega
  have hb2 : (d2 >>> i) &&& 1 = 0 ∨ (d2 >>> i) &&& 1 = 1 := by
    rw [Nat.and_one_is_mod]
    omega
  unfold stirStep
  rw [hx, hz]
  simp only [t0]
  rcases hb1 with hc1 | hc1 <;> rcases hb2 with hc2 | hc2 <;> rw [hc1, hc2]
  · rw [Nat.xor_zero]
    simp only [t0]
    exact rol64_one_xor3 _ _ _ h1 h2 h3
  · rw [Nat.zero_xor]
    simp only [t0, t1, if_true]
    rw [← rol64_one_xor3 _ _ _ h1 (Nat.xor_lt_two_pow h2 hC) h3]
    congr 1
    apply Nat.eq_of_testBit_eq
    intro j
    simp [Nat.testBit_xor, Bool.xor_assoc, Bool.xor_comm, Bool.xor_left_comm]
  · rw [Nat.xor_zero]
    simp only [t0, t1, if_true]
    rw [← rol64_one_xor3 _ _ _ (Nat.xor_lt_two_pow h1 hC) h2 h3]
    congr 1
    apply Nat.eq_of_testBit_eq
    intro j
    simp [Nat.testBit_xor, Bool.xor_assoc, Bool.xor_comm, Bool.xor_left_comm]
  · rw [Nat.xor_self]
    simp only [t0, t1, if_true]
    rw [← rol64_one_xor3 _ _ _ (Nat.xor_lt_two_pow h1 hC)
      (Nat.xor_lt_two_pow h2 hC) h3]
    congr 1
    apply Nat.eq_of_testBit_eq
    intro j
    simp [Nat.testBit_xor, Bool.xor_assoc, Bool.xor_comm, Bool.xor_left_comm]

/-- The stir loop is affine over GF(2), fold form. -/
lemma stir_foldl_linear (d1 d2 : Nat) :
    ∀ (l : List Nat) (m1 m2 m3 : Nat), m1 < 2 ^ 64 → m2 < 2 ^ 64 →
      m3 < 2 ^ 64 →
      l.foldl (stirStep (d1 ^^^ d2)) (m1 ^^^ m2 ^^^ m3) =
        l.foldl (stirStep d1) m1 ^^^ l.foldl (stirStep d2) m2 ^^^
          l.foldl (stirStep 0) m3 := by
  intro l
  induction l with
  | nil => intro m1 m2 m3 _ _ _; simp
  | cons x xs ih =>
    intro m1 m2 m3 h1 h2 h3
    simp only [List.foldl_cons]
    rw [stirStep_linear d1 d2 x m1 m2 m3 h1 h2 h3]
    exact ih _ _ _ (stirStep_lt d1 m1 x h1) (stirStep_lt d2 m2 x h2)
      (stirStep_lt 0 m3 x h3)

/-- The mixer value on the all-zero pool is the initial mixer constant
(64 rotations bring it back). -/
lemma jent_mixer_zero : jent_mixer 0 = SHA1_MIX0 := by decide!

/-- The mixer is affine over GF(2). -/
lemma jent_mixer_linear (a b : Nat) :
    jent_mixer (a ^^^ b) = jent_mixer a ^^^ jent_mixer b ^^^ SHA1_MIX0 := by
  have hM : SHA1_MIX0 < 2 ^ 64 := by norm_num [SHA1_MIX0]
  have h := stir_foldl_linear a b (List.range DATA_SIZE_BITS)
    SHA1_MIX0 SHA1_MIX0 SHA1_MIX0 hM hM hM
  have hMfold : SHA1_MIX0 ^^^ SHA1_MIX0 ^^^ SHA1_MIX0 = SHA1_MIX0 := by
    rw [Nat.xor_self, Nat.zero_xor]
  unfold jent_mixer
  conv_lhs => rw [← hMfold]
  rw [h]
  congr 1

/-- The linear part of the stir map: `stirH d = jent_stir_pool d ^^^
SHA1_MIX0`; `jent_stir_pool d = 0` iff `stirH d = SHA1_MIX0`. -/
def stirH (d : Nat) : Nat := jent_stir_pool d ^^^ SHA1_MIX0

/-- `stirH` is linear over GF(2). -/
lemma stirH_xor (a b : Nat) : stirH (a ^^^ b) = stirH a ^^^ stirH b := by
  unfold stirH jent_stir_pool
  rw [jent_mixer_linear]
  apply Nat.eq_of_testBit_eq
  intro j
  simp [Nat.testBit_xor, Bool.xor_assoc, Bool.xor_comm, Bool.xor_left_comm]

/-- The basis preimages of `stirH`: `stirHinvTable.getD i 0` is the unique
64-bit value that `stirH` maps to `2 ^ i` (obtained by solving the 64×64
GF(2) system defined by `stirH` on the basis). -/
def stirHinvTable : List Nat :=
  [0x77553311ffddbb98, 0x9382b1a0d7c6f5e6, 0x199108803bb32aa6,
   0xac6824e0bd7935f9, 0x977553311ffddba9, 0x49382b1a0d7c6f7e,
   0x2199108803bb32ea, 0x1ac6824e0bd793df, 0x9977553311ffdcbb,
   0xe49382b1a0d7c4f5, 0xa2199108803bb72a, 0xf1ac6824e0bd7135,
   0xb9977553311feddb, 0x5e49382b1a0d5c6f, 0xaa2199108803fb32,
   0x5f1ac6824e0b5793, 0xbb9977553310ffdd, 0xf5e49382b1a2d7c6,
   0x2aa2199108843bb3, 0x35f1ac6824e8bd79, 0xdbb9977553211ffd,
   0x6f5e49382b3a0d7c, 0x32aa219910c803bb, 0x935f1ac682ce0bd7,
   0xddbb9977543311ff, 0xc6f5e49380b1a0d7, 0xb32aa2199508803b,
   0x7935f1ac6024e0bd, 0xfddbb9976553311f, 0x7c6f5e49182b1a0d,
   0xbb32aa21d9108803, 0xd7935f1a46824e0b, 0xffddbb9877553311,
   0xd7c6f5e69382b1a0, 0x3bb32aa619910880, 0xbd7935f9ac6824e0,
   0x1ffddba997755331, 0x0d7c6f7e49382b1a, 0x03bb32ea21991088,
   0x0bd793df1ac6824e, 0x11ffdcbb99775533, 0xa0d7c4f5e49382b1,
   0x803bb72aa2199108, 0xe0bd7135f1ac6824, 0x311feddbb9977553,
   0x1a0d5c6f5e49382b, 0x8803fb32aa219910, 0x4e0b57935f1ac682,
   0x3310ffddbb997755, 0xb1a2d7c6f5e49382, 0x08843bb32aa21991,
   0x24e8bd7935f1ac68, 0x53211ffddbb99775, 0x2b3a0d7c6f5e4938,
   0x10c803bb32aa2199, 0x82ce0bd7935f1ac6, 0x543311ffddbb9977,
   0x80b1a0d7c6f5e493, 0x9508803bb32aa219, 0x6024e0bd7935f1ac,
   0x6553311ffddbb997, 0x182b1a0d7c6f5e49, 0xd9108803bb32aa21,
   0x46824e0bd7935f1a]

/-- The inverse linear map of `stirH`, assembled bit-by-bit from the basis
preimage table. -/
def stirHinv (y : Nat) : Nat :=
  (List.range 64).foldl
    (fun acc i => acc ^^^ (if y.testBit i then stirHinvTable.getD i 0 else 0))
    0

/-- `stirHinv` is linear over GF(2), fold form. -/
lemma stirHinv_foldl_xor (a b : Nat) :
    ∀ (l : List Nat) (acc1 acc2 : Nat),
      l.foldl (fun acc i => acc ^^^
          (if (a ^^^ b).testBit i then stirHinvTable.getD i 0 else 0))
        (acc1 ^^^ acc2) =
      l.foldl (fun acc i => acc ^^^
          (if a.testBit i then stirHinvTable.getD i 0 else 0)) acc1 ^^^
      l.foldl (fun acc i => acc ^^^
          (if b.testBit i then stirHinvTable.getD i 0 else 0)) acc2 := by
  intro l
  induction l with
  | nil => intro acc1 acc2; simp
  | cons x xs ih =>
    intro acc1 acc2
    simp only [List.foldl_cons]
    rw [← ih]
    congr 1
    rw [Nat.testBit_xor]
    cases ha : a.testBit x <;> cases hb : b.testBit x <;>
      apply Nat.eq_of_testBit_eq <;> intro j <;>
      simp [Nat.testBit_xor, Bool.xor_assoc, Bool.xor_comm,
        Bool.xor_left_comm]

/-- `stirHinv` is linear over GF(2). -/
lemma stirHinv_xor (a b : Nat) :
    stirHinv (a ^^^ b) = stirHinv a ^^^ stirHinv b := by
  unfold stirHinv
  have h := stirHinv_foldl_xor a b (List.range 64) 0 0
  simpa using h

/-- On the 64 basis vectors, `stirHinv` inverts `stirH`. -/
lemma stirHinv_stirH_basis : ∀ i < 64, stirHinv (stirH (2 ^ i)) = 2 ^ i := by
  decide!

/-- `stirHinv` inverts `stirH` on every 64-bit value: `stirH` is injective
on 64-bit pools. -/
lemma stirHinv_stirH (y : Nat) (hy : y < 2 ^ 64) :
    stirHinv (stirH y) = y := by
  induction y using Nat.strong_induction_on with
  | _ y ih =>
    rcases Nat.eq_zero_or_pos y with rfl | hpos
    · decide!
    · have hk1 : 2 ^ Nat.log2 y ≤ y := Nat.log2_self_le (by omega)
      have hk2 : y < 2 ^ (Nat.log2 y + 1) := Nat.lt_log2_self
      have hklt : Nat.log2 y < 64 := by
        by_contra hge
        have : (2 : Nat) ^ 64 ≤ 2 ^ Nat.log2 y :=
          Nat.pow_le_pow_right (by omega) (by omega)
        omega
      have hdiv : y / 2 ^ Nat.log2 y = 1 := by
        have hlt2 : y / 2 ^ Nat.log2 y < 2 := by
          rw [Nat.div_lt_iff_lt_mul (by positivity)]
          calc y < 2 ^ (Nat.log2 y + 1) := hk2
            _ = 2 * 2 ^ Nat.log2 y := by ring
        have hge1 : 1 ≤ y / 2 ^ Nat.log2 y :=
          (Nat.one_le_div_iff (by positivity)).mpr hk1
        omega
      have hbit : Nat.testBit y (Nat.log2 y) = true := by
        rw [Nat.testBit_to_div_mod, hdiv]
        decide
      have hyk : y ^^^ 2 ^ Nat.log2 y < 2 ^ Nat.log2 y := by
        apply Nat.lt_pow_two_of_testBit
        intro i hi
        rcases Nat.eq_or_lt_of_le hi with heq | hlt
        · rw [Nat.testBit_xor, ← heq, hbit, Nat.testBit_two_pow_self]
          rfl
        · rw [Nat.testBit_xor,
            Nat.testBit_lt_two_pow
              (lt_of_lt_of_le hk2 (Nat.pow_le_pow_right (by omega) hlt)),
            Nat.testBit_two_pow_of_ne (by omega)]
          rfl
      have hy'y : y ^^^ 2 ^ Nat.log2 y < y := lt_of_lt_of_le hyk hk1
      have hyeq : y = (y ^^^ 2 ^ Nat.log2 y) ^^^ 2 ^ Nat.log2 y :=
        (Nat.xor_cancel_right _ _).symm
      calc stirHinv (stirH y)
          = stirHinv (stirH ((y ^^^ 2 ^ Nat.log2 y) ^^^ 2 ^ Nat.log2 y)) := by
            rw [← hyeq]
        _ = stirHinv (stirH (y ^^^ 2 ^ Nat.log2 y)) ^^^
              stirHinv (stirH (2 ^ Nat.log2 y)) := by
            rw [stirH_xor, stirHinv_xor]
        _ = (y ^^^ 2 ^ Nat.log2 y) ^^^ 2 ^ Nat.log2 y := by
            rw [ih _ hy'y (lt_trans hy'y hy),
              stirHinv_stirH_basis _ hklt]
        _ = y := Nat.xor_cancel_right _ _

/-! ## Which errors the startup health test can raise -/

/-- The measurement loop of `jent_entropy_init` raises only the three
per-iteration errors. -/
lemma initLoop_error_mem (trace : Nat → Nat) :
    ∀ (n i pos : Nat) (st : InitStats) (e : InitResult),
      initLoop trace n i pos st = .error e →
      e ∈ [InitResult.ENOTIME, InitResult.ECOARSETIME,
        InitResult.EMINVARIATION] := by
  intro n
  induction n with
  | zero =>
    intro i pos st e h
    simp [initLoop] at h
  | succ n ih =>
    intro i pos st e h
    simp only [initLoop] at h
    repeat' split at h
    all_goals
      first
      | exact ih _ _ _ _ h
      | (simp only [Except.error.injEq] at h
         subst h
         decide)

/-- The `EMINVARVAR` post-check can never fire: the C precedence slip makes
its condition `(0 or 1) > TIME_ENTROPY_BITS`, false for
`TIME_ENTROPY_BITS = 1`. -/
lemma initPost_mem (st : InitStats) :
    initPost st ∈ [InitResult.ok, InitResult.ENOTIME, InitResult.ECOARSETIME,
      InitResult.EMINVARIATION, InitResult.ENOMONOTONIC,
      InitResult.EVARVAR] := by
  unfold initPost
  have hfalse : ¬ ((if st.delta_sum / TESTLOOPCOUNT = 0 then 1 else 0) >
      TIME_ENTROPY_BITS) := by
    unfold TIME_ENTROPY_BITS
    split <;> omega
  rw [if_neg hfalse]
  by_cases h1 : 3 < st.time_backwards
  · simp [h1]
  · by_cases h2 : st.delta_sum = 0
    · simp [h1, h2]
    · by_cases h4 : TESTLOOPCOUNT / 10 * 9 < st.count_mod
      · simp [h1, h2, h4]
      · simp [h1, h2, h4]

/-- `jent_entropy_init` never returns `EMINVARVAR`, whatever the timer
does. -/
lemma init_never_eminvarvar (trace : Nat → Nat) :
    jent_entropy_init trace ∈ [InitResult.ok, InitResult.ENOTIME,
      InitResult.ECOARSETIME, InitResult.EMINVARIATION,
      InitResult.ENOMONOTONIC, InitResult.EVARVAR] := by
  unfold jent_entropy_init
  rcases hL : initLoop trace (TESTLOOPCOUNT + CLEARCACHE) 0 0 ⟨0, 0, 0, 0, 0⟩
    with e | st
  · have h3 := initLoop_error_mem trace _ _ _ _ e hL
    fin_cases h3 <;> decide
  · exact initPost_mem st

/-- Binding an option against a two-way `some` is a map. -/
lemma bind_ite_some {α β : Type} (o : Option α) (c : α → Prop)
    [DecidablePred c] (u v : α → β) :
    (o.bind fun a => if c a then some (u a) else some (v a)) =
      o.map (fun a => if c a then u a else v a) := by
  cases o with
  | none => rfl
  | some a => by_cases h : c a <;> simp [h]

/-! ## The claims -/

/-- C1: the claim says init returns `EMINVARVAR` whenever all per-iteration
checks pass and `delta_sum / TESTLOOPCOUNT ≤ TIME_ENTROPY_BITS`.  The code
cannot do that: on `initTestTrace` every check passes, the final
`delta_sum` is 1 (so the mean variation is 0 ≤ TEB), yet init returns
success — and in fact init can never return `EMINVARVAR` on any trace,
because the C expression `!(delta_sum / TESTLOOPCOUNT) > TIME_ENTROPY_BITS`
compares the 0-or-1 result of `!` with `TIME_ENTROPY_BITS ≥ 1`. -/
theorem C1_mean_variation_check_never_fires :
    statsView (initLoop initTestTrace (TESTLOOPCOUNT + CLEARCACHE) 0 0
      ⟨0, 0, 0, 0, 0⟩) = some (1, 1, 0, 1, 0) ∧
    1 / TESTLOOPCOUNT ≤ TIME_ENTROPY_BITS ∧
    jent_entropy_init initTestTrace = InitResult.ok ∧
    ∀ trace, jent_entropy_init trace ∈ [InitResult.ok, InitResult.ENOTIME,
      InitResult.ECOARSETIME, InitResult.EMINVARIATION,
      InitResult.ENOMONOTONIC, InitResult.EVARVAR] :=
  ⟨by decide!, by decide, by decide!, init_never_eminvarvar⟩

/-- C2 (amended): with FIPS mode on, `fips_fail` unset and `old_data = 0`,
the continuous test sets `old_data` to the current pool value and runs one
generation pass; it returns 0 exactly when the pass left a pool value
different from the saved one, and otherwise sets `fips_fail` and returns
-1.  (The claim's unconditional "returns success" is refuted by
`C2_counterexample`.) -/
theorem C2_fips_priming (trace : Nat → Nat) (fuel : Nat) (s : JState)
    (hff : s.ec.fips_fail = false) (hod : s.ec.old_data = 0) :
    jent_fips_test trace true fuel s =
      (jent_gen_entropy trace fuel
        { s with ec := { s.ec with old_data := s.ec.data } }).map
        (fun s1 =>
          if s1.ec.data = s1.ec.old_data then
            ((-1 : Int), { s1 with ec := { s1.ec with fips_fail := true } })
          else
            ((0 : Int),
              { s1 with ec := { s1.ec with old_data := s1.ec.data } })) := by
  unfold jent_fips_test
  rw [if_neg (by simp : ¬ ((!true) = true))]
  rw [if_neg (by simp [hff] : ¬ (s.ec.fips_fail = true))]
  rw [if_pos hod]
  exact bind_ite_some _ _ _ _

/-- C2 witness: the priming equation at a concrete collector. -/
theorem C2_fips_priming_witness :
    baseState.ec.fips_fail = false ∧ baseState.ec.old_data = 0 ∧
    jent_fips_test zeroTrace true 0 baseState =
      (jent_gen_entropy zeroTrace 0
        { baseState with
          ec := { baseState.ec with old_data := baseState.ec.data } }).map
        (fun s1 =>
          if s1.ec.data = s1.ec.old_data then
            ((-1 : Int), { s1 with ec := { s1.ec with fips_fail := true } })
          else
            ((0 : Int),
              { s1 with ec := { s1.ec with old_data := s1.ec.data } })) :=
  ⟨by decide, by decide,
    C2_fips_priming zeroTrace 0 baseState (by decide) (by decide)⟩

/-- C2 counterexample: an unprimed collector in FIPS mode on the all-zero
timer.  The priming generation pass rotates the pool by a multiple of 64
bits, so the pool is unchanged, the comparison fails, and the call returns
-1 — not the success the claim demands. -/
theorem C2_counterexample :
    baseState.ec.fips_fail = false ∧ baseState.ec.old_data = 0 ∧
    (jent_fips_test zeroTrace true 0 baseState).map Prod.fst = some (-1) :=
  ⟨by decide, by decide, by decide!⟩

/-- C3 (amended): once `fips_fail` is set, every `read` with a positive
length in FIPS mode either returns the error -1 or does not return at all
(the generation pass may spin in the von-Neumann loop); it never returns
success.  (A zero-length `read` skips the FIPS test and reports success,
refuting the claim as stated: `C3_counterexample`.) -/
theorem C3_sticky_fips_failure (trace : Nat → Nat) (secure : Bool)
    (fuel : Nat) (s : JState) (len : Nat) (hf : s.ec.fips_fail = true)
    (hlen : 0 < len) :
    (jent_read_entropy trace true secure fuel s len).map (fun r => r.1) =
      some (-1) ∨
    jent_read_entropy trace true secure fuel s len = none :=
  read_fips_failed trace secure fuel s len hf hlen

/-- C3 witness: the amended property at a concrete failed collector. -/
theorem C3_sticky_fips_failure_witness :
    fipsFailedState.ec.fips_fail = true ∧
    ((jent_read_entropy zeroTrace true false 0 fipsFailedState 8).map
        (fun r => r.1) = some (-1) ∨
      jent_read_entropy zeroTrace true false 0 fipsFailedState 8 = none) :=
  ⟨by decide,
    C3_sticky_fips_failure zeroTrace false 0 fipsFailedState 8 (by decide)
      (by decide)⟩

/-- C3 counterexample: with `fips_fail` set, a `read` of length 0 returns
0 (success), because the `while (0 < len)` loop — and with it the FIPS
test — never runs. -/
theorem C3_counterexample :
    fipsFailedState.ec.fips_fail = true ∧
    (jent_read_entropy zeroTrace true false 0 fipsFailedState 0).map
      (fun r => r.1) = some 0 :=
  ⟨by decide, by decide!⟩

/-- C4 (amended): the von-Neumann unbiaser terminates whenever some
attempt draws two differing consecutive samples; there is no bound valid
for every timer sequence (`C4_counterexample` exhibits a sequence on which
it never returns, whatever the fuel). -/
theorem C4_unbiaser_termination (trace : Nat → Nat) (s : JState)
    (h : ∃ n, PairDiffersAt trace s n) :
    ∃ fuel, (jent_unbiased_bit trace fuel s).isSome := by
  obtain ⟨n, hn⟩ := h
  exact ⟨n + 1, unbiased_isSome_of_pairDiffers trace n s hn⟩

/-- C4 witness: on the all-one timer the very first pair differs, and the
unbiaser returns. -/
theorem C4_unbiaser_termination_witness :
    PairDiffersAt oneTrace (vnState 0 0) 0 ∧
    ∃ fuel, (jent_unbiased_bit oneTrace fuel (vnState 0 0)).isSome := by
  have hp : PairDiffersAt oneTrace (vnState 0 0) 0 := by
    unfold PairDiffersAt twoMeasures iterPairs
    decide!
  exact ⟨hp, C4_unbiaser_termination oneTrace (vnState 0 0) ⟨0, hp⟩⟩

/-- C4 counterexample: on the all-zero timer every drawn pair is `(0, 0)`,
so the unbiaser never returns — here after 1000 attempts, and by
`unbiased_vn_zero_none` after any number of attempts whatsoever: the loop
is not bounded for every timer sequence. -/
theorem C4_counterexample :
    jent_unbiased_bit zeroTrace 1000 (vnState 0 0) = none :=
  unbiased_vn_zero_none 1000 0 0

/-- C5: with unbiasing enabled, whenever the unbiaser draws two differing
consecutive samples `a` and `b`, it returns `a` — for the build's
`TIME_ENTROPY_BITS = 1`, under which every sample is below
`2 ^ TIME_ENTROPY_BITS = 2`, so `return (1 == a) ? 1 : 0` returns `a`
itself. -/
theorem C5_unbiaser_returns_first_sample (trace : Nat → Nat) (s : JState)
    (fuel : Nat) (hd : s.ec.disable_unbias = false)
    (hne : (jent_measure_jitter trace s).1 ≠
      (jent_measure_jitter trace (jent_measure_jitter trace s).2).1) :
    jent_unbiased_bit trace (fuel + 1) s =
      some ((jent_measure_jitter trace s).1,
        (jent_measure_jitter trace (jent_measure_jitter trace s).2).2) := by
  rw [jent_unbiased_bit.eq_def]
  simp only [hd, Bool.false_eq_true, if_false]
  rw [if_neg hne]
  have hlt := measure_fst_lt trace s
  have h2 : (2 : Nat) ^ TIME_ENTROPY_BITS = 2 := by decide
  rw [h2] at hlt
  have hcase : (jent_measure_jitter trace s).1 = 0 ∨
      (jent_measure_jitter trace s).1 = 1 := by omega
  rcases hcase with hc | hc <;> simp [hc]

/-- C5 witness: on the all-one timer the first two samples are 1 and 0,
and the unbiaser returns the first sample, 1. -/
theorem C5_unbiaser_returns_first_sample_witness :
    (vnState 0 0).ec.disable_unbias = false ∧
    (jent_measure_jitter oneTrace (vnState 0 0)).1 ≠
      (jent_measure_jitter oneTrace
        (jent_measure_jitter oneTrace (vnState 0 0)).2).1 ∧
    jent_unbiased_bit oneTrace 1 (vnState 0 0) =
      some ((jent_measure_jitter oneTrace (vnState 0 0)).1,
        (jent_measure_jitter oneTrace
          (jent_measure_jitter oneTrace (vnState 0 0)).2).2) :=
  ⟨by decide, by decide!,
    C5_unbiaser_returns_first_sample oneTrace (vnState 0 0) 0 (by decide)
      (by decide!)⟩

/-- C6: one pass of the source's fold loop equals the spec's window-XOR
formula `XOR_{i=0..N-1} ((t >> (teb*i)) & ((1 << teb) - 1))` with
`N = 64 / teb`, and the folded result is below `2 ^ teb` — for every
window width `teb ≥ 1`, which covers the build's `TIME_ENTROPY_BITS`. -/
theorem C6_fold_window_xor (teb t : Nat) (hteb : 0 < teb)
    (ht : t < 2 ^ 64) :
    foldOnce teb t = specFold teb t ∧ foldOnce teb t < 2 ^ teb :=
  ⟨foldOnce_eq_specFold teb t, foldOnce_lt teb t⟩

/-- C6 witness: the fold equation at the build's window width and the
64-bit input of the source's own worked example. -/
theorem C6_fold_window_xor_witness :
    0 < TIME_ENTROPY_BITS ∧ (0xaaabbbcccddd : Nat) < 2 ^ 64 ∧
    (foldOnce TIME_ENTROPY_BITS 0xaaabbbcccddd =
        specFold TIME_ENTROPY_BITS 0xaaabbbcccddd ∧
      foldOnce TIME_ENTROPY_BITS 0xaaabbbcccddd < 2 ^ TIME_ENTROPY_BITS) :=
  ⟨by decide, by decide,
    C6_fold_window_xor TIME_ENTROPY_BITS 0xaaabbbcccddd (by decide)
      (by decide)⟩

/-- C7 (amended): the stir step never zeroes a non-zero 64-bit pool —
except for the single value `0x88aaccee00224466`, the unique preimage of
the mixer's fixed constants under the stir map's linear part
(`C7_counterexample` shows stir zeroes exactly that pool value). -/
theorem C7_stir_nonzero (d : Nat) (hlt : d < 2 ^ 64) (h0 : d ≠ 0)
    (hX : d ≠ 0x88aaccee00224466) : jent_stir_pool d ≠ 0 := by
  intro hz
  have hHd : stirH d = SHA1_MIX0 := by
    unfold stirH
    rw [hz, Nat.zero_xor]
  have hHX : stirH 0x88aaccee00224466 = SHA1_MIX0 := by decide!
  have hxor : stirH (d ^^^ 0x88aaccee00224466) = 0 := by
    rw [stirH_xor, hHd, hHX, Nat.xor_self]
  have hlt2 : d ^^^ 0x88aaccee00224466 < 2 ^ 64 :=
    Nat.xor_lt_two_pow hlt (by norm_num)
  have hinv := stirHinv_stirH (d ^^^ 0x88aaccee00224466) hlt2
  rw [hxor] at hinv
  have h0' : stirHinv 0 = 0 := by decide
  rw [h0'] at hinv
  exact hX (Nat.xor_eq_zero.mp hinv.symm)

/-- C7 witness: stir keeps the non-zero pool value 1 non-zero. -/
theorem C7_stir_nonzero_witness :
    (1 : Nat) < 2 ^ 64 ∧ (1 : Nat) ≠ 0 ∧
    (1 : Nat) ≠ 0x88aaccee00224466 ∧ jent_stir_pool 1 ≠ 0 :=
  ⟨by decide, by decide, by decide,
    C7_stir_nonzero 1 (by decide) (by decide) (by decide)⟩

/-- C7 counterexample: the non-zero pool value `0x88aaccee00224466` is
zeroed by the stir step, refuting the claim as universally stated. -/
theorem C7_counterexample :
    0 < (0x88aaccee00224466 : Nat) ∧
    jent_stir_pool 0x88aaccee00224466 = 0 :=
  ⟨by decide, by decide!⟩

/-- C8 (amended): with unbiasing disabled and FIPS mode off, a `read` of 8
bytes in the non-secure build performs exactly `2 · (64·osr + 1)` jitter
measurements for the build's `TIME_ENTROPY_BITS = 1`: the output pass and
the scrub pass each perform `osr · ceil(64/TEB)` sample measurements plus
one priming measurement.  (The claim's count `osr · ceil(64/TEB) + 1` for
the whole read is refuted by `C8_counterexample`.) -/
theorem C8_read_measurement_count (trace : Nat → Nat) (fuel : Nat)
    (s : JState) (hd : s.ec.disable_unbias = true) (hosr : 0 < s.ec.osr) :
    ∃ r, jent_read_entropy trace false false fuel s 8 = some r ∧
      r.1 = 8 ∧
      r.2.2.measures = s.measures + 2 * (64 * s.ec.osr + 1) := by
  have hg : genRounds s.ec.osr = 64 * s.ec.osr := by
    unfold genRounds DATA_SIZE_BITS TIME_ENTROPY_BITS
    norm_num
  obtain ⟨r, h1, h2, h3⟩ := read8_disable trace fuel s hd hosr
  exact ⟨r, h1, h2, by rw [h3, hg]⟩

/-- C8 witness: the amended count at a concrete collector with
`osr = 1`. -/
theorem C8_read_measurement_count_witness :
    baseState.ec.disable_unbias = true ∧ 0 < baseState.ec.osr ∧
    ∃ r, jent_read_entropy zeroTrace false false 0 baseState 8 = some r ∧
      r.1 = 8 ∧
      r.2.2.measures = baseState.measures + 2 * (64 * baseState.ec.osr + 1) :=
  ⟨by decide, by decide,
    C8_read_measurement_count zeroTrace 0 baseState (by decide) (by decide)⟩

/-- C8 counterexample: with `osr = 1` (and even with the unbiaser disabled,
its cheapest configuration) a read of 8 bytes performs 130 measurements,
not the `64 · 1 + 1 = 65` the claim states — the scrub pass and the
per-pass priming are unaccounted for. -/
theorem C8_counterexample :
    baseState.ec.osr = 1 ∧
    (jent_read_entropy zeroTrace false false 0 baseState 8).map
      (fun r => r.2.2.measures) = some 130 ∧
    64 * 1 + 1 < 130 :=
  ⟨by decide, by decide!, by decide⟩

/-- C9: the claim says the variance bookkeeping runs only for
`i > CLEARCACHE`, so after the first measured iteration (`i = CLEARCACHE`)
`delta_sum` would still be 0.  The code guards the bookkeeping with
`if (i)`, which is already true at `i = CLEARCACHE = 100`: running the
loop through exactly the first measured iteration on `initTestTrace`
(all deltas 1) leaves `delta_sum = 1` and `count_var = 1` — the unprimed
`old_delta = 0` was compared against. -/
theorem C9_first_measured_iteration_adds_to_delta_sum :
    statsView (initLoop initTestTrace (CLEARCACHE + 1) 0 0 ⟨0, 0, 0, 0, 0⟩) =
      some (1, 1, 0, 1, 0) := by
  decide!

/-- C10: a `read` of length 0 from any collector skips the loop — no FIPS
test, no bytes — and consists of exactly the scrub generation pass, with
result 0; concretely, it reports success even on a collector whose
`fips_fail` flag is set. -/
theorem C10_read_zero_length :
    (∀ (trace : Nat → Nat) (fe : Bool) (fuel : Nat) (s : JState),
      jent_read_entropy trace fe false fuel s 0 =
        (jent_gen_entropy trace fuel s).map
          (fun s2 => ((0 : Int), ([] : List Nat), s2))) ∧
    (jent_read_entropy zeroTrace true false 0 fipsFailedState 0).map
      (fun r => (r.1, r.2.1)) = some (0, []) :=
  ⟨read_zero_eq, by decide!⟩

end Jent
